import Mathlib

/-!
Verification of the path-to-resource compiler of `lightkube-generate`
(`compile_resources.py` together with the schema naming of `model.py`).

The Python source is shallowly embedded: ordered dictionaries become
association lists, Python `None` becomes `Option`, raising code returns
`Except String`, and the `set.pop()` used to choose a module from the
documentation tags is modelled by an explicit choice function
`pick : List String → String` applied to the insertion-ordered,
de-duplicated union of the tags.  `repr` of a plain string (no quotes,
no escapes, the only case exercised by the generator) is modelled as
wrapping in single quotes.
-/

namespace LKGen

/-- Underlying decidable lexicographic comparison on code points, the order
Python uses to sort lists of strings. -/
def charListLe : List Char → List Char → Bool
  | [], _ => true
  | _ :: _, [] => false
  | a :: as, b :: bs =>
    if a.toNat < b.toNat then true
    else if b.toNat < a.toNat then false
    else charListLe as bs

/-- Lexicographic order on strings by code points (Python string `<=`). -/
def strLe (a b : String) : Bool := charListLe a.data b.data

/-- Python `sorted(set(l))`: de-duplicate, then sort ascending (source
`compile_resources.py`, `usorted`). -/
def usorted (l : List String) : List String :=
  List.insertionSort (fun a b => strLe a b = true) l.dedup

/-- Python truthiness of an optional string: `None` and `""` are falsy. -/
def pyTruthyOS : Option String → Bool
  | none => false
  | some s => s ≠ ""

/-- Model of Python `repr` for the plain identifier-like strings the
generator quotes (wraps in single quotes). -/
def pyquote (s : String) : String := "\x27" ++ s ++ "\x27"

/-- Python `str.capitalize()`: first character upper-cased, the rest
lower-cased (ASCII inputs). -/
def pyCapitalize (s : String) : String :=
  match s.data with
  | [] => ""
  | c :: r => String.mk (c.toUpper :: r.map Char.toLower)

/-- Characters of `RE_CAMELCASE.sub`: insert an underscore before every
upper-case letter that is not at the start, then lower-case. -/
def snakeChars : Bool → List Char → List Char
  | _, [] => []
  | first, c :: r =>
    if c.isUpper && !first then '_' :: c.toLower :: snakeChars false r
    else c.toLower :: snakeChars false r

/-- Source `to_snake_case` (`compile_resources.py` line 21). -/
def to_snake_case (s : String) : String := String.mk (snakeChars true s.data)

/-- Strip a literal from the front of a character list, or fail. -/
def stripLit : List Char → List Char → Option (List Char)
  | [], s => some s
  | _, [] => none
  | c :: lit, d :: s => if c = d then stripLit lit s else none

/-- Greedy `[^/]*`: longest slash-free front, and the rest. -/
def takeNonSlash : List Char → List Char × List Char
  | [] => ([], [])
  | c :: s =>
    if c = '/' then ([], c :: s)
    else
      let p := takeNonSlash s
      (c :: p.1, p.2)

/-- Python `str.lstrip("/")`: drop every leading slash. -/
def lstripSlashes : List Char → List Char
  | [] => []
  | c :: r => if c = '/' then lstripSlashes r else c :: r

/-- Named captures of `RE_PATH` (`compile_resources.py` lines 12-14). -/
structure PathMatch where
  group : Option String
  version : String
  watch : Option String
  ns : Option String
  plural : String
  action : Option String
deriving DecidableEq

/-- Trailing `(?:/{name}(?P<action>/[^/]*)?)?` of `RE_PATH`: returns the
`action` capture (the whole group is optional, so this never fails). -/
def matchNameAction (s : List Char) : Option String :=
  match stripLit ("/{name}".data) s with
  | none => none
  | some r =>
    match r with
    | '/' :: r2 => some (String.mk ('/' :: (takeNonSlash r2).1))
    | _ => none

/-- Mandatory `/` followed by the greedy `plural` capture and the optional
name/action tail. -/
def matchSlashPlural (s : List Char) : Option (String × Option String) :=
  match s with
  | '/' :: r =>
    let p := takeNonSlash r
    some (String.mk p.1, matchNameAction p.2)
  | _ => none

/-- Greedy optional `(?P<ns>/namespaces/{namespace})?` with backtracking,
then the plural part. -/
def matchAfterWatch (s : List Char) : Option (Option String × String × Option String) :=
  (match stripLit ("/namespaces/{namespace}".data) s with
   | some r =>
     (matchSlashPlural r).map (fun pa => (some "/namespaces/{namespace}", pa.1, pa.2))
   | none => none)
  <|> (matchSlashPlural s).map (fun pa => ((none : Option String), pa.1, pa.2))

/-- Greedy optional `(?P<watch>/watch)?` with backtracking, then the rest. -/
def matchAfterVersion (s : List Char) :
    Option (Option String × Option String × String × Option String) :=
  (match stripLit ("/watch".data) s with
   | some r => (matchAfterWatch r).map (fun t => (some "/watch", t))
   | none => none)
  <|> (matchAfterWatch s).map (fun t => ((none : Option String), t))

/-- Mandatory `/` and the greedy `(?P<version>v[^/]*)` capture. -/
def matchVersionPart (s : List Char) :
    Option (String × Option String × Option String × String × Option String) :=
  match s with
  | '/' :: 'v' :: r =>
    let p := takeNonSlash r
    (matchAfterVersion p.2).map (fun t => (String.mk ('v' :: p.1), t))
  | _ => none

/-- Lazy `(?P<group>/.*?)?` body: try the shortest group content first,
growing one character at a time (`.` does not match a newline). -/
def tryGroupLoop (consumed : List Char) (rest : List Char) :
    Option (String × String × Option String × Option String × String × Option String) :=
  match (matchVersionPart rest).map
      (fun t => (String.mk ('/' :: consumed), t)) with
  | some r => some r
  | none =>
    match rest with
    | [] => none
    | c :: r =>
      if c = '\x0a' then none else tryGroupLoop (consumed ++ [c]) r

/-- Group-present alternative: the capture must start with `/`. -/
def tryGroup (s : List Char) :
    Option (String × String × Option String × Option String × String × Option String) :=
  match s with
  | '/' :: r => tryGroupLoop [] r
  | _ => none

/-- After `/api` and the optional `s`: greedy-optional group capture first,
then the group-absent alternative. -/
def fromGroup (s : List Char) : Option PathMatch :=
  match tryGroup s with
  | some (g, v, w, n, pl, a) => some ⟨some g, v, w, n, pl, a⟩
  | none =>
    (matchVersionPart s).map (fun t => ⟨none, t.1, t.2.1, t.2.2.1, t.2.2.2.1, t.2.2.2.2⟩)

/-- Source `RE_PATH.match` (`re.match` anchored at the start only):
`/apis?(?P<group>/.*?)?/(?P<version>v[^/]*)(?P<watch>/watch)?`
`(?P<ns>/namespaces/{namespace})?/(?P<plural>[^/]*)(?:/{name}(?P<action>/[^/]*)?)?`. -/
def matchPath (path : String) : Option PathMatch :=
  match stripLit ("/api".data) path.data with
  | none => none
  | some s0 =>
    (match s0 with
     | 's' :: r => fromGroup r
     | _ => none)
    <|> fromGroup s0

/-- Source `model.py` `Schema`: a type name and an optional owning module. -/
structure Schema where
  name : String
  module : Option String
deriving DecidableEq

/-- Source `Schema.full_name` (`model.py` lines 14-17): `None` when the
module is falsy. -/
def Schema.full_name (s : Schema) : Option String :=
  match s.module with
  | some m => if m = "" then none else some (m ++ "." ++ s.name)
  | none => none

/-- Remainder of the input after the last occurrence of `.api.`, `.apis.`
or `.pkg.`; `none` when no occurrence exists.  This is what the greedy
`RE_MODEL = ^.*[.](apis?|pkg)[.]` matches away in `model.py`. -/
def afterMarker : List Char → Option (List Char)
  | [] => none
  | c :: r =>
    let here : Option (List Char) :=
      match stripLit (".apis.".data) (c :: r) with
      | some t => some t
      | none =>
        match stripLit (".api.".data) (c :: r) with
        | some t => some t
        | none => stripLit (".pkg.".data) (c :: r)
    match afterMarker r with
    | some t => some t
    | none => here

/-- Split a character list at a separator character; Python `str.split`
(always returns at least one piece). -/
def splitOnCh (sep : Char) : List Char → List (List Char)
  | [] => [[]]
  | d :: r =>
    let rest := splitOnCh sep r
    if d = sep then [] :: rest
    else
      match rest with
      | [] => [[d]]
      | h :: t => (d :: h) :: t

/-- Source `schema_name` (`model.py` lines 20-29).  The `assert` becomes an
error. -/
def schema_name (orig : String) : Except String Schema :=
  let module0 : String :=
    match afterMarker orig.data with
    | some t => String.mk t
    | none => orig
  let parts := splitOnCh '.' module0.data
  if parts.length > 3 then Except.error "AssertionError: len(parts) <= 3"
  else
    let m : String :=
      if parts.length = 3 then
        String.mk (parts.headD []) ++ "_" ++ String.mk ((parts.drop 1).headD [])
      else String.mk (parts.headD [])
    Except.ok ⟨String.mk (parts.getLastD []), some m⟩

/-- Source `ApiKey` named tuple: `(group, version, plural)`. -/
structure ApiKey where
  group : String
  version : String
  plural : String
deriving DecidableEq

/-- Source `Resource` named tuple: the group/version/kind identity. -/
structure Resource where
  group : String
  version : String
  kind : String
deriving DecidableEq

/-- Source `Resource.definition`: `f"res.ResourceDef{tuple(self)}"`. -/
def Resource.definition (r : Resource) : String :=
  "res.ResourceDef(" ++ pyquote r.group ++ ", " ++ pyquote r.version ++ ", "
    ++ pyquote r.kind ++ ")"

/-- Source `SpecPath` named tuple: one normalized path record. -/
structure SpecPath where
  path : String
  group_key : ApiKey
  resource : Option Resource
  methods : List String
  module : String
  model_schema : Option Schema
  namespaced : Bool
  sub_action : Option String
deriving DecidableEq

/-- Source `SubAction` named tuple. -/
structure SubAction where
  name : String
  actions : List String
  resource : Option Resource
  model_schema : Option Schema
deriving DecidableEq

/-- Source `SpecPath.to_subaction` (lines 50-52). -/
def SpecPath.to_subaction (e : SpecPath) : SubAction :=
  ⟨e.sub_action.getD "", usorted e.methods, e.resource, e.model_schema⟩

/-- Source `Compiled` named tuple: the merged view of one `ApiKey`. -/
structure Compiled where
  resource : Resource
  plural : String
  module : Option String
  model_schema : Option Schema
  namespaced : Bool
  actions : List String
  sub_actions : List SubAction
deriving DecidableEq

/-- Values of the heterogeneous property bag of a class descriptor
(strings and verb lists). -/
inductive PropVal
  | s (v : String)
  | l (v : List String)
deriving DecidableEq

/-- Source `Class` named tuple: one class descriptor for templating. -/
structure Class where
  name : String
  properties : List (String × PropVal)
  actions : List (String × String)
  classes : List String
  model_import : Option String
deriving DecidableEq

/-- Response schema of one method: a `$ref` or an inline primitive type
(`mdef['responses']['200']['schema']`). -/
inductive SchemaVal
  | sref (s : String)
  | prim (t : String)
deriving DecidableEq

/-- One entry of a parameter list: inline (only its `name` matters to the
compiler) or a `$ref` into the document's shared parameter definitions. -/
inductive Param
  | inline (name : String)
  | pref (r : String)
deriving DecidableEq

/-- Typed view of one HTTP-method definition: exactly the fields
`extract` reads. -/
structure MDef where
  schema : SchemaVal
  action : Option String
  gvk : Option Resource
  tags : List String
  parameters : Option (List Param)
deriving DecidableEq

/-- One entry of a path definition mapping: an HTTP method, or the literal
`"parameters"` shared-parameter block. -/
inductive PathEntry
  | meth (name : String) (m : MDef)
  | shared (ps : List Param)
deriving DecidableEq

/-- Typed view of the specification document: ordered `paths` mapping and
the shared parameter definitions (keyed by name, carrying the parameter's
`name` field). -/
structure Doc where
  paths : List (String × List PathEntry)
  parameters : List (String × String)
deriving DecidableEq

/-- Association-list lookup (Python dict read). -/
def alookup {κ β : Type} [DecidableEq κ] : List (κ × β) → κ → Option β
  | [], _ => none
  | (k2, v) :: r, k => if k2 = k then some v else alookup r k

/-- Last component of `ref.split("/")` (`iter_parameters`, line 82). -/
def lastSeg (s : String) : String := String.mk ((splitOnCh '/' s.data).getLastD [])

/-- Resolve one parameter entry, following a `$ref` into the document's
shared parameter definitions (`iter_parameters`, lines 79-84); a missing
key raises. -/
def resolveParam (doc : Doc) : Param → Except String String
  | .inline n => Except.ok n
  | .pref r =>
    match alookup doc.parameters (lastSeg r) with
    | some n => Except.ok n
    | none => Except.error ("KeyError: " ++ lastSeg r)

/-- Scan a method's own parameter list for one named `watch`, stopping at
the first hit (lines 123-126, with `break`). -/
def findWatch (doc : Doc) : List Param → Except String Bool
  | [] => Except.ok false
  | p :: ps => do
    let n ← resolveParam doc p
    if n = "watch" then Except.ok true else findWatch doc ps

/-- Scan the shared parameter block, appending one `watch` per matching
parameter (lines 128-130, no `break`). -/
def sharedWatch (doc : Doc) : List Param → Except String (List String)
  | [] => Except.ok []
  | p :: ps => do
    let n ← resolveParam doc p
    let rest ← sharedWatch doc ps
    Except.ok (if n = "watch" then "watch" :: rest else rest)

/-- Accumulators of the method loop of `extract` (lines 104-130):
verb list, first group/version/kind, last response schema, and the
insertion-ordered de-duplicated union of the documentation tags. -/
structure ExtState where
  methods : List String
  resource : Option Resource
  model_schema : Option Schema
  tags : List String
deriving DecidableEq

/-- Python `set.update`: add the elements not already present, keeping
insertion order as the canonical enumeration of the set. -/
def dedupAdd (ts : List String) (new : List String) : List String :=
  new.foldl (fun acc t => if t ∈ acc then acc else acc ++ [t]) ts

/-- One iteration of the method loop of `extract` (lines 109-130). -/
def procEntry (doc : Doc) (st : ExtState) : PathEntry → Except String ExtState
  | .meth name m => do
    let sch ← match m.schema with
      | .sref s => schema_name s
      | .prim t => Except.ok ⟨t, none⟩
    let act := m.action.getD name
    let methods1 := if act ≠ "connect" then st.methods ++ [act] else st.methods
    let res1 := match st.resource with
      | none => m.gvk
      | some r => some r
    let tags1 := dedupAdd st.tags m.tags
    let methods2 ← match m.parameters with
      | some ps => do
        let w ← findWatch doc ps
        Except.ok (if w then methods1 ++ ["watch"] else methods1)
      | none => Except.ok methods1
    Except.ok ⟨methods2, res1, some sch, tags1⟩
  | .shared ps => do
    let ws ← sharedWatch doc ps
    Except.ok { st with methods := st.methods ++ ws }

/-- Whole method loop of `extract` for one path definition. -/
def procEntries (doc : Doc) (defi : List PathEntry) : Except String ExtState :=
  defi.foldlM (procEntry doc) ⟨[], none, none, []⟩

/-- Per-path body of `extract` (lines 91-146): grammar match, watch and
plural filters, the method loop, then at most one record.  `pick` models
`set.pop()` on the tag set; popping an empty set raises `KeyError`. -/
def extractPath (doc : Doc) (pick : List String → String) (path : String)
    (defi : List PathEntry) : Except String (List SpecPath) :=
  match matchPath path with
  | none => Except.ok []
  | some g =>
    if pyTruthyOS g.watch then Except.ok []
    else
      let key : ApiKey :=
        ⟨String.mk (lstripSlashes ((g.group.getD "").data)), g.version, g.plural⟩
      if key.plural = "" then Except.ok []
      else do
        let st ← procEntries doc defi
        let sub_action : Option String :=
          match g.action with
          | some a => if a = "" then none else some (String.mk (lstripSlashes a.data))
          | none => none
        if st.methods = [] then Except.ok []
        else if st.tags = [] then Except.error "KeyError: pop from an empty set"
        else
          Except.ok [⟨path, key, st.resource, st.methods, to_snake_case (pick st.tags),
                      st.model_schema, g.ns.isSome, sub_action⟩]

/-- Effectful map over a list in order, stopping at the first error
(the generator protocol of `extract` as consumed by `aggregate`). -/
def emapM {α β : Type} (f : α → Except String β) : List α → Except String (List β)
  | [] => Except.ok []
  | a :: l => do
    let b ← f a
    let bs ← emapM f l
    Except.ok (b :: bs)

/-- Source `extract` over the whole document: one record stream. -/
def extract (doc : Doc) (pick : List String → String) : Except String (List SpecPath) := do
  let rs ← emapM (fun pe => extractPath doc pick pe.1 pe.2) doc.paths
  Except.ok rs.flatten

/-- Insert into an association list of lists, appending to the bucket when
the key is present (Python `defaultdict(list)` append). -/
def upsertApp {κ α : Type} [DecidableEq κ] :
    List (κ × List α) → κ → α → List (κ × List α)
  | [], k, a => [(k, [a])]
  | (k2, xs) :: r, k, a =>
    if k2 = k then (k2, xs ++ [a]) :: r else (k2, xs) :: upsertApp r k a

/-- Source `aggregate` (lines 149-154): group records by `ApiKey`,
preserving first-seen key order and record order. -/
def aggregate (rs : List SpecPath) : List (ApiKey × List SpecPath) :=
  rs.foldl (fun acc e => upsertApp acc e.group_key e) []

/-- Accumulators of the first loop of `compile_one` (lines 174-186). -/
structure CompAcc where
  namespaced : Bool
  module : Option String
  resource : Option Resource
  model_schema : Option Schema
deriving DecidableEq

/-- One iteration of the first loop of `compile_one` (lines 178-186);
note that the resource identity is overwritten by every non-sub-action
record that carries one. -/
def compStep (a : CompAcc) (e : SpecPath) : CompAcc :=
  { namespaced := a.namespaced || e.namespaced
    module := if !pyTruthyOS a.module && e.module ≠ "" then some e.module else a.module
    resource := if e.resource.isSome && e.sub_action.isNone then e.resource else a.resource
    model_schema :=
      if a.model_schema.isNone && e.sub_action.isNone
          && (e.methods.contains "get" || e.methods.contains "post") then
        e.model_schema
      else a.model_schema }

/-- First loop of `compile_one` over the bucket. -/
def compAcc (elements : List SpecPath) : CompAcc :=
  elements.foldl compStep ⟨false, none, none, none⟩

/-- Python truthiness of `ele.sub_action` (line 194): a non-empty string. -/
def subTruthy (o : Option String) : Bool := pyTruthyOS o

/-- Rename with the `global_` prefix (line 197). -/
def globalize (ms : List String) : List String := ms.map (fun m => "global_" ++ m)

/-- Action contributions of the second loop of `compile_one`
(lines 193-199), given the resolved namespaced flag. -/
def rawActions (ns : Bool) (elements : List SpecPath) : List String :=
  elements.foldl
    (fun acc e =>
      if subTruthy e.sub_action then acc
      else if ns && !e.namespaced then acc ++ globalize e.methods
      else acc ++ e.methods)
    []

/-- Source `compile_one` (lines 173-210): merge one bucket, or `None` when
no non-sub-action record carries an identity. -/
def compile_one (key : ApiKey) (elements : List SpecPath) : Option Compiled :=
  let a := compAcc elements
  match a.resource with
  | none => none
  | some res =>
    some ⟨res, key.plural, a.module, a.model_schema, a.namespaced,
          usorted (rawActions a.namespaced elements),
          (elements.filter (fun e => subTruthy e.sub_action)).map SpecPath.to_subaction⟩

/-- Source `transform_classes` (lines 161-170): drop `None`, add the `m_`
alias marker to dotted names. -/
def transform_classes (cs : List (Option String)) : List String :=
  cs.filterMap (fun c =>
    c.map (fun s => if s.data.contains '.' then "m_" ++ s else s))

/-- Python dict assignment `d[k] = v` on an insertion-ordered
association list. -/
def dinsert : List (String × String) → String → String → List (String × String)
  | [], k, v => [(k, v)]
  | (k2, v2) :: r, k, v =>
    if k2 = k then (k2, v) :: r else (k2, v2) :: dinsert r k v

/-- Sub-resource descriptor of `get_classes` (lines 218-231); accessing a
member of a `None` schema or identity raises. -/
def subClass (c : Compiled) (sa : SubAction) : Except String Class :=
  let kind := c.resource.kind ++ pyCapitalize sa.name
  let tag := if c.namespaced then "NamespacedSubResource" else "GlobalSubResource"
  match sa.resource with
  | none => Except.error "AttributeError: NoneType object has no attribute definition"
  | some sres =>
    match sa.model_schema with
    | none => Except.error "AttributeError: NoneType object has no attribute full_name"
    | some msch =>
      Except.ok ⟨kind,
        [("resource", PropVal.s sres.definition), ("parent", PropVal.s c.resource.definition),
         ("plural", PropVal.s (pyquote c.plural)), ("verbs", PropVal.l sa.actions),
         ("action", PropVal.s (pyquote sa.name))],
        [], transform_classes [some tag, msch.full_name], msch.module⟩

/-- Sub-action table of the primary descriptor (lines 217, 232). -/
def buildActs (c : Compiled) : List (String × String) :=
  c.sub_actions.foldl
    (fun d sa => dinsert d (pyCapitalize sa.name) (c.resource.kind ++ pyCapitalize sa.name))
    []

/-- Primary descriptor of `get_classes` (lines 234-245). -/
def primaryClass (c : Compiled) (acts : List (String × String)) : Except String Class :=
  let tag :=
    if c.actions.contains "global_list" then "NamespacedResourceG"
    else if c.namespaced then "NamespacedResource" else "GlobalResource"
  match c.model_schema with
  | none => Except.error "AttributeError: NoneType object has no attribute full_name"
  | some msch =>
    Except.ok ⟨c.resource.kind,
      [("resource", PropVal.s c.resource.definition), ("plural", PropVal.s (pyquote c.plural)),
       ("verbs", PropVal.l c.actions)],
      acts, transform_classes [some tag, msch.full_name],
      match msch.module with
      | some m => if m = "" then none else some m
      | none => none⟩

/-- Source `get_classes` (lines 213-245): one descriptor per sub-action,
then exactly one primary descriptor. -/
def getClasses (c : Compiled) : Except String (List Class) := do
  let subs ← emapM (subClass c) c.sub_actions
  let prim ← primaryClass c (buildActs c)
  Except.ok (subs ++ [prim])

/-- Bucket loop of `compile_resources` (lines 255-259): group the compiled
resources by module, in first-seen module order. -/
def bucketsToModules (bs : List (ApiKey × List SpecPath)) :
    List (Option String × List Compiled) :=
  bs.foldl
    (fun acc ke =>
      match compile_one ke.1 ke.2 with
      | some c => upsertApp acc c.module c
      | none => acc)
    []

/-- Import set of one module (lines 265-274): the sorted truthy
`model_import`s. -/
def importsOf (cs : List Class) : List String :=
  usorted (cs.filterMap (fun cl =>
    match cl.model_import with
    | some s => if s = "" then none else some s
    | none => none))

/-- Rendered import lines `f"{t} as m_{t}"` (line 274). -/
def fmtImports (l : List String) : List String := l.map (fun t => t ++ " as m_" ++ t)

/-- Module loop of `compile_resources` (lines 261-279): per module, the
ordered class descriptors and the rendered import list. -/
def compileModules (bs : List (ApiKey × List SpecPath)) :
    Except String (List (Option String × List Class × List String)) :=
  emapM
    (fun mc => do
      let cls ← emapM getClasses mc.2
      Except.ok (mc.1, cls.flatten, fmtImports (importsOf cls.flatten)))
    (bucketsToModules bs)

/-- The whole pipeline `compile_resources(aggregate(extract(doc)))`, as the
in-memory result handed to templating. -/
def pipeline (doc : Doc) (pick : List String → String) :
    Except String (List (Option String × List Class × List String)) := do
  let rs ← extract doc pick
  compileModules (aggregate rs)

/-- The compiled resources the pipeline produces, in bucket order. -/
def compiledOf (doc : Doc) (pick : List String → String) : Except String (List Compiled) := do
  let rs ← extract doc pick
  Except.ok ((aggregate rs).filterMap (fun ke => compile_one ke.1 ke.2))

/-- Deterministic tag choices used as concrete stand-ins for `set.pop()`. -/
def pickHead (l : List String) : String := l.headD ""

/-- A different, equally legitimate stand-in for `set.pop()`. -/
def pickLast (l : List String) : String := l.getLastD ""

/-- The resource identity the specification ascribes to a bucket, stated in
the specification's own terms except for the order: the identity of the
LAST record that carries one and has no sub-action. -/
def lastIdentity (elements : List SpecPath) : Option Resource :=
  ((elements.filter (fun e => e.resource.isSome && e.sub_action.isNone)).getLast?).bind
    SpecPath.resource

/-- One step of the bucket loop of `compile_resources`. -/
def bmStep (acc : List (Option String × List Compiled)) (ke : ApiKey × List SpecPath) :
    List (Option String × List Compiled) :=
  match compile_one ke.1 ke.2 with
  | some c => upsertApp acc c.module c
  | none => acc

/-- Concrete fixture: the `get` method of the pods collection endpoints of
the concrete scenario (action override `list`, Pod identity, tag `Pod`). -/
def podMDefGet : MDef :=
  ⟨SchemaVal.sref "#/definitions/io.k8s.api.core.v1.Pod", some "list",
   some ⟨"", "v1", "Pod"⟩, ["Pod"], none⟩

/-- Concrete fixture: the `post` method of the namespaced pods collection
(no action override, so the effective action is the method name `post`,
the creation operation). -/
def podMDefPost : MDef :=
  ⟨SchemaVal.sref "#/definitions/io.k8s.api.core.v1.Pod", none,
   some ⟨"", "v1", "Pod"⟩, ["Pod"], none⟩

/-- Concrete scenario document with the second path carrying the `Pod`
documentation tag as well. -/
def docC3good : Doc :=
  ⟨[("/api/v1/namespaces/{namespace}/pods",
     [PathEntry.meth "get" podMDefGet, PathEntry.meth "post" podMDefPost]),
    ("/api/v1/pods", [PathEntry.meth "get" podMDefGet])], []⟩

/-- Concrete scenario document exactly as the claim words it: the second
path carries no documentation tag at all. -/
def docC3bad : Doc :=
  ⟨[("/api/v1/namespaces/{namespace}/pods",
     [PathEntry.meth "get" podMDefGet, PathEntry.meth "post" podMDefPost]),
    ("/api/v1/pods", [PathEntry.meth "get" { podMDefGet with tags := [] }])], []⟩

/-- Document with a single path carrying two documentation tags. -/
def docC2 : Doc :=
  ⟨[("/api/v1/things",
     [PathEntry.meth "get"
       ⟨SchemaVal.prim "object", none, some ⟨"", "v1", "Thing"⟩, ["Alpha", "Beta"], none⟩])],
   []⟩

/-- Document with a single path carrying exactly one documentation tag. -/
def docC2one : Doc :=
  ⟨[("/api/v1/things",
     [PathEntry.meth "get"
       ⟨SchemaVal.prim "object", none, some ⟨"", "v1", "Thing"⟩, ["Alpha"], none⟩])],
   []⟩

/-- Record carrying identity `Alpha`, no sub-action. -/
def rAlpha : SpecPath :=
  ⟨"/api/v1/things", ⟨"", "v1", "things"⟩, some ⟨"", "v1", "Alpha"⟩, ["get"], "thing",
   some ⟨"object", none⟩, false, none⟩

/-- The same record carrying identity `Beta` instead. -/
def rBeta : SpecPath := { rAlpha with resource := some ⟨"", "v1", "Beta"⟩ }

/-- Namespace-scoped record contributing verbs `get` and `list`. -/
def rNsGetList : SpecPath :=
  ⟨"/api/v1/namespaces/{namespace}/pods", ⟨"", "v1", "pods"⟩, some ⟨"", "v1", "Pod"⟩,
   ["get", "list"], "pod", some ⟨"Pod", some "core_v1"⟩, true, none⟩

/-- Cluster-scoped record contributing verb `list` only. -/
def rGlList : SpecPath :=
  ⟨"/api/v1/pods", ⟨"", "v1", "pods"⟩, some ⟨"", "v1", "Pod"⟩,
   ["list"], "pod", some ⟨"Pod", some "core_v1"⟩, false, none⟩

/-- Record with verbs deliberately unsorted and duplicated, plus a
sub-action record in the same bucket. -/
def rDup : SpecPath :=
  ⟨"/api/v1/things", ⟨"", "v1", "things"⟩, some ⟨"", "v1", "Thing"⟩,
   ["post", "get", "post", "delete"], "thing", some ⟨"object", none⟩, false, none⟩

/-- Sub-action record with unsorted duplicated verbs. -/
def rDupSub : SpecPath :=
  ⟨"/api/v1/things/{name}/status", ⟨"", "v1", "things"⟩, some ⟨"", "v1", "Thing"⟩,
   ["put", "get", "put"], "thing", some ⟨"object", none⟩, false, some "status"⟩

/-- Record with no identity at all. -/
def rNoIdent : SpecPath := { rAlpha with resource := none }

/-- Sub-action record that does carry an identity. -/
def rSubIdent : SpecPath := { rAlpha with sub_action := some "status" }

/-- Record whose bucket compiles to a schema-less resource: the record has
a schema, but its verb set contains neither `get` nor `post`, so
`compile_one` leaves the compiled schema unresolved. -/
def rDeleteOnly : SpecPath :=
  ⟨"/api/v1/things", ⟨"", "v1", "things"⟩, some ⟨"", "v1", "Thing"⟩, ["delete"], "thing",
   some ⟨"Status", some "meta_v1"⟩, false, none⟩

/-- The compiled resource `compile_one` makes of `rDeleteOnly`: its
response schema is absent. -/
def cNoSchema : Compiled :=
  ⟨⟨"", "v1", "Thing"⟩, "things", some "thing", none, false, ["delete"], []⟩

/-- Compiled resource with a present but module-less (primitive) schema. -/
def cPrimSchema : Compiled :=
  ⟨⟨"", "v1", "Thing"⟩, "things", some "thing", some ⟨"object", none⟩, false, ["delete"], []⟩

/-- Compiled resource with one `status` sub-action, for exercising the
class descriptor builder. -/
def cWithSub : Compiled :=
  ⟨⟨"", "v1", "Pod"⟩, "pods", some "pod", some ⟨"Pod", some "core_v1"⟩, true,
   ["list", "post"],
   [⟨"status", ["get", "put"], some ⟨"", "v1", "Pod"⟩, some ⟨"Pod", some "core_v1"⟩⟩]⟩

/-- The class descriptors the builder emits for `cWithSub`. -/
def clsWithSub : List Class :=
  [⟨"PodStatus",
    [("resource", PropVal.s (Resource.definition ⟨"", "v1", "Pod"⟩)),
     ("parent", PropVal.s (Resource.definition ⟨"", "v1", "Pod"⟩)),
     ("plural", PropVal.s (pyquote "pods")),
     ("verbs", PropVal.l ["get", "put"]),
     ("action", PropVal.s (pyquote "status"))],
    [], ["NamespacedSubResource", "m_core_v1.Pod"], some "core_v1"⟩,
   ⟨"Pod",
    [("resource", PropVal.s (Resource.definition ⟨"", "v1", "Pod"⟩)),
     ("plural", PropVal.s (pyquote "pods")),
     ("verbs", PropVal.l ["list", "post"])],
    [("Status", "PodStatus")], ["NamespacedResource", "m_core_v1.Pod"], some "core_v1"⟩]

/-- Path definition with one method and no documentation tags. -/
def defiC10 : List PathEntry :=
  [PathEntry.meth "get" ⟨SchemaVal.prim "object", some "list", none, [], none⟩]

/-- Document whose single path yields a record with methods but no tags. -/
def docC10 : Doc := ⟨[("/api/v1/pods", defiC10)], []⟩

/-- Empty document, for exercising single-path extraction. -/
def docEmpty : Doc := ⟨[], []⟩

instance exceptDecEq {ε α : Type} [DecidableEq ε] [DecidableEq α] : DecidableEq (Except ε α)
  | Except.ok a, Except.ok b =>
    match decEq a b with
    | isTrue h => isTrue (by rw [h])
    | isFalse h => isFalse (by intro hc; cases hc; exact h rfl)
  | Except.ok _, Except.error _ => isFalse (by intro hc; cases hc)
  | Except.error _, Except.ok _ => isFalse (by intro hc; cases hc)
  | Except.error a, Except.error b =>
    match decEq a b with
    | isTrue h => isTrue (by rw [h])
    | isFalse h => isFalse (by intro hc; cases hc; exact h rfl)

theorem charListLe_total : ∀ as bs, charListLe as bs = true ∨ charListLe bs as = true := by
  intro as
  induction as with
  | nil => intro bs; left; rfl
  | cons a as ih =>
    intro bs
    cases bs with
    | nil => right; rfl
    | cons b bs =>
      simp only [charListLe]
      rcases Nat.lt_trichotomy a.toNat b.toNat with h | h | h
      · left; simp [h]
      · have hab : ¬a.toNat < b.toNat := by omega
        have hba : ¬b.toNat < a.toNat := by omega
        rcases ih bs with h2 | h2
        · left; simp [hab, hba, h2]
        · right; simp [hab, hba, h2]
      · right; simp [h]

theorem charListLe_trans : ∀ as bs cs, charListLe as bs = true → charListLe bs cs = true →
    charListLe as cs = true := by
  intro as
  induction as with
  | nil => intro bs cs _ _; rfl
  | cons a as ih =>
    intro bs cs h1 h2
    cases bs with
    | nil => simp [charListLe] at h1
    | cons b bs =>
      cases cs with
      | nil => simp [charListLe] at h2
      | cons c cs =>
        simp only [charListLe] at h1 h2 ⊢
        by_cases hab : a.toNat < b.toNat
        · by_cases hbc : b.toNat < c.toNat
          · have hac : a.toNat < c.toNat := Nat.lt_trans hab hbc
            simp [hac]
          · by_cases hcb : c.toNat < b.toNat
            · simp [hbc, hcb] at h2
            · have hac : a.toNat < c.toNat := by omega
              simp [hac]
        · by_cases hba : b.toNat < a.toNat
          · simp [hab, hba] at h1
          · simp only [if_neg hab, if_neg hba] at h1
            by_cases hbc : b.toNat < c.toNat
            · have hac : a.toNat < c.toNat := by omega
              simp [hac]
            · by_cases hcb : c.toNat < b.toNat
              · simp [hbc, hcb] at h2
              · simp only [if_neg hbc, if_neg hcb] at h2
                have hac : ¬a.toNat < c.toNat := by omega
                have hca : ¬c.toNat < a.toNat := by omega
                simp only [if_neg hac, if_neg hca]
                exact ih bs cs h1 h2

instance strLeIsTotal : IsTotal String (fun a b => strLe a b = true) :=
  ⟨fun a b => charListLe_total a.data b.data⟩

instance strLeIsTrans : IsTrans String (fun a b => strLe a b = true) :=
  ⟨fun a b c => charListLe_trans a.data b.data c.data⟩

theorem usorted_sorted (l : List String) :
    List.Sorted (fun a b => strLe a b = true) (usorted l) :=
  List.sorted_insertionSort _ _

theorem usorted_nodup (l : List String) : (usorted l).Nodup :=
  ((List.perm_insertionSort _ _).nodup_iff).mpr (List.nodup_dedup _)

theorem emapM_congr {α β : Type} (f g : α → Except String β) :
    ∀ l : List α, (∀ a ∈ l, f a = g a) → emapM f l = emapM g l := by
  intro l
  induction l with
  | nil => intro _; rfl
  | cons a l ih =>
    intro h
    simp only [emapM]
    rw [h a (by simp), ih (fun x hx => h x (by simp [hx]))]

theorem emapM_ok_succ {α β : Type} (f : α → Except String β) (a : α) (l : List α)
    (bs : List β) (h : emapM f (a :: l) = Except.ok bs) :
    ∃ b bs2, f a = Except.ok b ∧ emapM f l = Except.ok bs2 ∧ bs = b :: bs2 := by
  cases hfa : f a with
  | error e =>
    simp only [emapM, hfa, Except.instMonad, Except.bind] at h
    exact Except.noConfusion h
  | ok b =>
    cases hrest : emapM f l with
    | error e =>
      simp only [emapM, hfa, hrest, Except.instMonad, Except.bind] at h
      exact Except.noConfusion h
    | ok bs2 =>
      simp only [emapM, hfa, hrest, Except.instMonad, Except.bind] at h
      cases h
      exact ⟨b, bs2, rfl, rfl, rfl⟩

theorem emapM_ok_parts {α β : Type} (f : α → Except String β) :
    ∀ (l : List α) (bs : List β), emapM f l = Except.ok bs →
      bs.length = l.length ∧
      ∀ i a, l.get? i = some a → ∃ b, bs.get? i = some b ∧ f a = Except.ok b := by
  intro l
  induction l with
  | nil =>
    intro bs h
    simp only [emapM] at h
    cases h
    exact ⟨rfl, by intro i a ha; simp at ha⟩
  | cons a l ih =>
    intro bs h
    obtain ⟨b, bs2, hfa, hrest, rfl⟩ := emapM_ok_succ f a l bs h
    obtain ⟨hlen, hget⟩ := ih bs2 hrest
    refine ⟨by simp [hlen], ?_⟩
    intro i x hx
    cases i with
    | zero =>
      simp only [List.get?] at hx
      cases hx
      exact ⟨b, rfl, hfa⟩
    | succ j =>
      simp only [List.get?] at hx ⊢
      exact hget j x hx

theorem compile_one_some (key : ApiKey) (els : List SpecPath) (c : Compiled)
    (h : compile_one key els = some c) :
    (compAcc els).resource = some c.resource ∧ c.plural = key.plural ∧
    c.module = (compAcc els).module ∧ c.model_schema = (compAcc els).model_schema ∧
    c.namespaced = (compAcc els).namespaced ∧
    c.actions = usorted (rawActions (compAcc els).namespaced els) ∧
    c.sub_actions = (els.filter (fun e => subTruthy e.sub_action)).map SpecPath.to_subaction := by
  simp only [compile_one] at h
  cases hres : (compAcc els).resource with
  | none => rw [hres] at h; exact Option.noConfusion h
  | some res =>
    rw [hres] at h
    cases h
    exact ⟨rfl, rfl, rfl, rfl, rfl, rfl, rfl⟩

theorem compAcc_resource_aux (els : List SpecPath) :
    ∀ a : CompAcc, (els.foldl compStep a).resource =
      match (els.filter (fun e => e.resource.isSome && e.sub_action.isNone)).getLast? with
      | some e => e.resource
      | none => a.resource := by
  induction els with
  | nil => intro a; rfl
  | cons e l ih =>
    intro a
    simp only [List.foldl_cons, List.filter_cons]
    by_cases hP : (e.resource.isSome && e.sub_action.isNone) = true
    · rw [if_pos hP, ih (compStep a e)]
      have hstep : (compStep a e).resource = e.resource := by
        simp [compStep, hP]
      cases hfl : (l.filter (fun e => e.resource.isSome && e.sub_action.isNone)) with
      | nil => simp [hfl, hstep]
      | cons x xs =>
        rw [List.getLast?_cons_cons]
        cases hgl : (x :: xs).getLast? with
        | none => rw [List.getLast?_eq_none_iff] at hgl; exact List.noConfusion hgl
        | some y => simp
    · rw [if_neg hP, ih (compStep a e)]
      have hstep : (compStep a e).resource = a.resource := by
        simp only [compStep]
        rw [if_neg hP]
      cases hfl : (l.filter (fun e => e.resource.isSome && e.sub_action.isNone)).getLast? with
      | none => simp [hfl, hstep]
      | some x => simp [hfl]

theorem compAcc_resource (els : List SpecPath) :
    (compAcc els).resource =
      match (els.filter (fun e => e.resource.isSome && e.sub_action.isNone)).getLast? with
      | some e => e.resource
      | none => none :=
  compAcc_resource_aux els ⟨false, none, none, none⟩

theorem bucketsToModules_eq (bs : List (ApiKey × List SpecPath)) :
    bucketsToModules bs = bs.foldl bmStep [] := rfl

theorem pickHead_mem : ∀ l : List String, l ≠ [] → pickHead l ∈ l := by
  intro l h
  cases l with
  | nil => exact absurd rfl h
  | cons a t => simp [pickHead]

theorem pickLast_mem : ∀ l : List String, l ≠ [] → pickLast l ∈ l := by
  intro l
  induction l with
  | nil => intro h; exact absurd rfl h
  | cons a t ih =>
    intro _
    cases t with
    | nil => simp [pickLast]
    | cons b r =>
      have : pickLast (a :: b :: r) = pickLast (b :: r) := by
        simp [pickLast, List.getLastD]
      rw [this]
      exact List.mem_cons_of_mem a (ih (by simp))

theorem alookup_dinsert_self (d : List (String × String)) (k v : String) :
    alookup (dinsert d k v) k = some v := by
  induction d with
  | nil => simp [dinsert, alookup]
  | cons p r ih =>
    cases p with
    | mk k2 v2 =>
      by_cases hk : k2 = k
      · simp [dinsert, hk, alookup]
      · simp [dinsert, hk, alookup, ih]

theorem alookup_dinsert_ne (d : List (String × String)) (k v k3 : String) (h : k3 ≠ k) :
    alookup (dinsert d k v) k3 = alookup d k3 := by
  induction d with
  | nil =>
    simp only [dinsert, alookup]
    rw [if_neg (Ne.symm h)]
  | cons p r ih =>
    cases p with
    | mk k2 v2 =>
      simp only [dinsert]
      by_cases hk : k2 = k
      · rw [if_pos hk]
        simp only [alookup]
        subst hk
        rw [if_neg (Ne.symm h), if_neg (Ne.symm h)]
      · rw [if_neg hk]
        simp only [alookup]
        by_cases hk3 : k2 = k3
        · rw [if_pos hk3, if_pos hk3]
        · rw [if_neg hk3, if_neg hk3, ih]

theorem foldl_dinsert_lookup {α : Type} (κ : α → String) (g : String → String) :
    ∀ (l : List α) (d : List (String × String)) (k : String),
      (alookup d k = some (g k) ∨ ∃ a ∈ l, κ a = k) →
      alookup (l.foldl (fun d2 a => dinsert d2 (κ a) (g (κ a))) d) k = some (g k) := by
  intro l
  induction l with
  | nil =>
    intro d k h
    rcases h with h | ⟨a, ha, _⟩
    · exact h
    · simp at ha
  | cons a l ih =>
    intro d k h
    simp only [List.foldl_cons]
    apply ih
    by_cases hk : κ a = k
    · left
      rw [← hk]
      exact alookup_dinsert_self d (κ a) (g (κ a))
    · rcases h with h | ⟨b, hb, hkb⟩
      · left
        rw [alookup_dinsert_ne d (κ a) (g (κ a)) k (fun hc => hk hc.symm)]
        exact h
      · rcases List.mem_cons.mp hb with rfl | hbl
        · exact absurd hkb hk
        · exact Or.inr ⟨b, hbl, hkb⟩

theorem buildActs_mem_lookup (c : Compiled) :
    ∀ sa ∈ c.sub_actions,
      alookup (buildActs c) (pyCapitalize sa.name) =
        some (c.resource.kind ++ pyCapitalize sa.name) := by
  intro sa hsa
  exact foldl_dinsert_lookup (fun x => pyCapitalize x.name)
    (fun k => c.resource.kind ++ k) c.sub_actions [] (pyCapitalize sa.name)
    (Or.inr ⟨sa, hsa, rfl⟩)

theorem subClass_ok (c : Compiled) (sa : SubAction) (b : Class)
    (h : subClass c sa = Except.ok b) :
    ∃ sres msch, sa.resource = some sres ∧ sa.model_schema = some msch ∧
      b = ⟨c.resource.kind ++ pyCapitalize sa.name,
        [("resource", PropVal.s sres.definition),
         ("parent", PropVal.s c.resource.definition),
         ("plural", PropVal.s (pyquote c.plural)),
         ("verbs", PropVal.l sa.actions),
         ("action", PropVal.s (pyquote sa.name))],
        [], transform_classes
          [some (if c.namespaced then "NamespacedSubResource" else "GlobalSubResource"),
           msch.full_name],
        msch.module⟩ := by
  unfold subClass at h
  cases hr : sa.resource with
  | none => rw [hr] at h; exact Except.noConfusion h
  | some sres =>
    rw [hr] at h
    cases hm : sa.model_schema with
    | none => rw [hm] at h; exact Except.noConfusion h
    | some msch =>
      rw [hm] at h
      cases h
      exact ⟨sres, msch, rfl, rfl, rfl⟩

theorem primaryClass_ok (c : Compiled) (acts : List (String × String)) (prim : Class)
    (h : primaryClass c acts = Except.ok prim) :
    ∃ msch, c.model_schema = some msch ∧
      prim = ⟨c.resource.kind,
        [("resource", PropVal.s c.resource.definition),
         ("plural", PropVal.s (pyquote c.plural)),
         ("verbs", PropVal.l c.actions)],
        acts, transform_classes
          [some (if c.actions.contains "global_list" then "NamespacedResourceG"
                 else if c.namespaced then "NamespacedResource" else "GlobalResource"),
           msch.full_name],
        match msch.module with
        | some m => if m = "" then none else some m
        | none => none⟩ := by
  unfold primaryClass at h
  cases hm : c.model_schema with
  | none => rw [hm] at h; exact Except.noConfusion h
  | some msch =>
    rw [hm] at h
    cases h
    exact ⟨msch, rfl, rfl⟩

theorem getClasses_ok (c : Compiled) (cls : List Class) (h : getClasses c = Except.ok cls) :
    ∃ subs prim, emapM (subClass c) c.sub_actions = Except.ok subs ∧
      primaryClass c (buildActs c) = Except.ok prim ∧ cls = subs ++ [prim] := by
  unfold getClasses at h
  cases hsubs : emapM (subClass c) c.sub_actions with
  | error e =>
    simp only [hsubs, Except.instMonad, Except.bind] at h
    exact Except.noConfusion h
  | ok subs =>
    cases hprim : primaryClass c (buildActs c) with
    | error e =>
      simp only [hsubs, hprim, Except.instMonad, Except.bind] at h
      exact Except.noConfusion h
    | ok prim =>
      simp only [hsubs, hprim, Except.instMonad, Except.bind] at h
      cases h
      exact ⟨subs, prim, rfl, rfl, rfl⟩

theorem extractPath_congr (doc : Doc) (p1 p2 : List String → String) (path : String)
    (defi : List PathEntry)
    (hv1 : ∀ l, l ≠ [] → p1 l ∈ l) (hv2 : ∀ l, l ≠ [] → p2 l ∈ l)
    (ht : ∀ st, procEntries doc defi = Except.ok st → st.tags.length ≤ 1) :
    extractPath doc p1 path defi = extractPath doc p2 path defi := by
  unfold extractPath
  cases hm : matchPath path with
  | none => rfl
  | some g =>
    dsimp only
    split_ifs with hw hp
    · rfl
    · rfl
    · cases hpr : procEntries doc defi with
      | error e => simp [Except.instMonad, Except.bind]
      | ok st =>
        simp only [Except.instMonad, Except.bind]
        split_ifs with hme hte
        · rfl
        · rfl
        · have hlen := ht st hpr
          cases htg : st.tags with
          | nil => exact absurd htg hte
          | cons t r =>
            cases r with
            | nil =>
              have h1 : p1 [t] = t := by
                have := hv1 [t] (by simp)
                simpa using this
              have h2 : p2 [t] = t := by
                have := hv2 [t] (by simp)
                simpa using this
              rw [h1, h2]
            | cons t2 r2 =>
              rw [htg] at hlen
              simp at hlen

theorem extract_congr (doc : Doc) (p1 p2 : List String → String)
    (hv1 : ∀ l, l ≠ [] → p1 l ∈ l) (hv2 : ∀ l, l ≠ [] → p2 l ∈ l)
    (h1 : ∀ p defi, (p, defi) ∈ doc.paths →
      ∀ st, procEntries doc defi = Except.ok st → st.tags.length ≤ 1) :
    extract doc p1 = extract doc p2 := by
  unfold extract
  have heq : emapM (fun pe => extractPath doc p1 pe.1 pe.2) doc.paths =
      emapM (fun pe => extractPath doc p2 pe.1 pe.2) doc.paths := by
    apply emapM_congr
    intro a ha
    cases a with
    | mk p defi => exact extractPath_congr doc p1 p2 p defi hv1 hv2 (h1 p defi ha)
  rw [heq]

/-- C9: for every path string whose grammar match captures a non-empty
`watch` segment, extraction produces no record at all, regardless of the
path's method definitions; the path is skipped silently, not treated as an
error. -/
theorem C9_thm (doc : Doc) (pick : List String → String) (path : String)
    (defi : List PathEntry) (g : PathMatch) (w : String)
    (hm : matchPath path = some g) (hw : g.watch = some w) (hne : w ≠ "") :
    extractPath doc pick path defi = Except.ok [] := by
  unfold extractPath
  rw [hm]
  dsimp only
  have htruthy : pyTruthyOS g.watch = true := by
    rw [hw]
    simp [pyTruthyOS, hne]
  rw [if_pos htruthy]

theorem C9_witness :
    matchPath "/api/v1/watch/pods" = some ⟨none, "v1", some "/watch", none, "pods", none⟩ ∧
    extractPath docEmpty pickHead "/api/v1/watch/pods" defiC10 = Except.ok [] :=
  ⟨by decide,
   C9_thm docEmpty pickHead "/api/v1/watch/pods" defiC10
     ⟨none, "v1", some "/watch", none, "pods", none⟩ "/watch" (by decide) rfl (by decide)⟩

/-- C10: for every path that matches the grammar, is not a watch path, has
a non-empty plural, and whose method loop succeeds with a non-empty verb
set but an empty documentation-tag union, extraction raises (the
`set.pop()` in the record construction) instead of yielding a record or
silently skipping the path. -/
theorem C10_thm (doc : Doc) (pick : List String → String) (path : String)
    (defi : List PathEntry) (g : PathMatch) (st : ExtState)
    (hm : matchPath path = some g) (hw : pyTruthyOS g.watch = false)
    (hp : g.plural ≠ "") (hpr : procEntries doc defi = Except.ok st)
    (hne : st.methods ≠ []) (ht : st.tags = []) :
    extractPath doc pick path defi = Except.error "KeyError: pop from an empty set" := by
  unfold extractPath
  rw [hm]
  dsimp only
  rw [hw]
  simp only [Bool.false_eq_true, if_false]
  rw [if_neg hp, hpr]
  simp only [Except.instMonad, Except.bind]
  rw [if_neg hne, if_pos ht]

theorem C10_witness :
    procEntries docC10 defiC10 = Except.ok ⟨["list"], none, some ⟨"object", none⟩, []⟩ ∧
    extractPath docC10 pickHead "/api/v1/pods" defiC10 =
      Except.error "KeyError: pop from an empty set" :=
  ⟨by decide,
   C10_thm docC10 pickHead "/api/v1/pods" defiC10
     ⟨none, "v1", none, none, "pods", none⟩ ⟨["list"], none, some ⟨"object", none⟩, []⟩
     (by decide) rfl (by decide) (by decide) (by decide) rfl⟩

/-- C1 counterexample: a bucket with two non-sub-action records carrying
different non-null identities resolves to the SECOND record's identity,
so a later record does change the resolved identity, contradicting the
first-occurrence-wins reading. -/
theorem C1_counterexample :
    rAlpha.resource = some ⟨"", "v1", "Alpha"⟩ ∧ rAlpha.sub_action = none ∧
    rBeta.resource = some ⟨"", "v1", "Beta"⟩ ∧ rBeta.sub_action = none ∧
    (compile_one ⟨"", "v1", "things"⟩ [rAlpha, rBeta]).map Compiled.resource =
      some ⟨"", "v1", "Beta"⟩ ∧
    (⟨"", "v1", "Beta"⟩ : Resource) ≠ ⟨"", "v1", "Alpha"⟩ := by
  refine ⟨rfl, rfl, rfl, rfl, by decide, by decide⟩

/-- C1 as amended: the compiled resource's identity equals the identity
carried by the LAST record in the bucket (in record order) that has a
non-null identity and no sub-action; later such records DO override
earlier ones. -/
theorem C1_thm (key : ApiKey) (els : List SpecPath) (c : Compiled)
    (h : compile_one key els = some c) :
    lastIdentity els = some c.resource := by
  have h1 := (compile_one_some key els c h).1
  rw [compAcc_resource] at h1
  unfold lastIdentity
  cases hfl : (els.filter (fun e => e.resource.isSome && e.sub_action.isNone)).getLast? with
  | none =>
    rw [hfl] at h1
    exact Option.noConfusion h1
  | some e =>
    rw [hfl] at h1
    exact h1

theorem C1_witness :
    compile_one ⟨"", "v1", "things"⟩ [rAlpha, rBeta] =
      some ⟨⟨"", "v1", "Beta"⟩, "things", some "thing", some ⟨"object", none⟩, false,
            ["get"], []⟩ ∧
    lastIdentity [rAlpha, rBeta] =
      some (Compiled.resource ⟨⟨"", "v1", "Beta"⟩, "things", some "thing",
            some ⟨"object", none⟩, false, ["get"], []⟩) :=
  ⟨by decide,
   C1_thm ⟨"", "v1", "things"⟩ [rAlpha, rBeta]
     ⟨⟨"", "v1", "Beta"⟩, "things", some "thing", some ⟨"object", none⟩, false, ["get"], []⟩
     (by decide)⟩

/-- C6: for every `ApiKey` bucket in which no record both carries a
non-null identity and has no sub-action, the Resource Compiler returns
nothing — no `CompiledResource` (hence no class descriptor) is produced
for that bucket — and the bucket grouping of every other bucket is
exactly what it would have been had the bucket not existed. -/
theorem C6_thm (key : ApiKey) (els : List SpecPath) (l1 l2 : List (ApiKey × List SpecPath))
    (h : ∀ e ∈ els, ¬(e.resource.isSome = true ∧ e.sub_action = none)) :
    compile_one key els = none ∧
    bucketsToModules (l1 ++ (key, els) :: l2) = bucketsToModules (l1 ++ l2) := by
  have hfil : els.filter (fun e => e.resource.isSome && e.sub_action.isNone) = [] := by
    rw [List.filter_eq_nil_iff]
    intro e he
    simp only [Bool.and_eq_true, Option.isNone_iff_eq_none]
    exact h e he
  have hres : (compAcc els).resource = none := by
    rw [compAcc_resource, hfil]
    rfl
  have hnone : compile_one key els = none := by
    simp only [compile_one]
    rw [hres]
  refine ⟨hnone, ?_⟩
  rw [bucketsToModules_eq, bucketsToModules_eq, List.foldl_append, List.foldl_cons,
      List.foldl_append]
  have hskip : bmStep (List.foldl bmStep [] l1) (key, els) = List.foldl bmStep [] l1 := by
    simp only [bmStep]
    rw [hnone]
  rw [hskip]

theorem C6_witness :
    compile_one ⟨"", "v1", "things"⟩ [rNoIdent, rSubIdent] = none ∧
    bucketsToModules
        [(⟨"", "v1", "pods"⟩, [rNsGetList]), (⟨"", "v1", "things"⟩, [rNoIdent, rSubIdent])] =
      bucketsToModules [(⟨"", "v1", "pods"⟩, [rNsGetList])] :=
  C6_thm ⟨"", "v1", "things"⟩ [rNoIdent, rSubIdent] [(⟨"", "v1", "pods"⟩, [rNsGetList])] []
    (by decide)

/-- C5: for every compiled resource, the primary action list and the
action list of every sub-action entry contain no duplicates and are in
ascending lexicographic order. -/
theorem C5_thm (key : ApiKey) (elements : List SpecPath) (c : Compiled)
    (h : compile_one key elements = some c) :
    (c.actions.Nodup ∧ List.Sorted (fun a b => strLe a b = true) c.actions) ∧
    ∀ sa ∈ c.sub_actions,
      sa.actions.Nodup ∧ List.Sorted (fun a b => strLe a b = true) sa.actions := by
  obtain ⟨-, -, -, -, -, hact, hsub⟩ := compile_one_some key elements c h
  constructor
  · rw [hact]
    exact ⟨usorted_nodup _, usorted_sorted _⟩
  · intro sa hsa
    rw [hsub] at hsa
    obtain ⟨e, _, rfl⟩ := List.mem_map.mp hsa
    exact ⟨usorted_nodup _, usorted_sorted _⟩

theorem C5_witness :
    compile_one ⟨"", "v1", "things"⟩ [rDup, rDupSub] =
      some ⟨⟨"", "v1", "Thing"⟩, "things", some "thing", some ⟨"object", none⟩, false,
            ["delete", "get", "post"],
            [⟨"status", ["get", "put"], some ⟨"", "v1", "Thing"⟩, some ⟨"object", none⟩⟩]⟩ ∧
    (["delete", "get", "post"] : List String).Nodup ∧
    List.Sorted (fun a b => strLe a b = true) ["delete", "get", "post"] := by
  have h : compile_one ⟨"", "v1", "things"⟩ [rDup, rDupSub] =
      some ⟨⟨"", "v1", "Thing"⟩, "things", some "thing", some ⟨"object", none⟩, false,
            ["delete", "get", "post"],
            [⟨"status", ["get", "put"], some ⟨"", "v1", "Thing"⟩, some ⟨"object", none⟩⟩]⟩ := by
    decide
  have h2 := (C5_thm ⟨"", "v1", "things"⟩ [rDup, rDupSub] _ h).1
  exact ⟨h, h2⟩

/-- C4: a bucket made of one namespace-scoped record with verbs
`{get, list}` and one cluster-scoped record with verbs `{list}`, with no
sub-actions, compiles with `namespaced = true` and primary action list
exactly `[get, global_list, list]`: the cluster-scoped contribution is
renamed with the `global_` prefix rather than merged unchanged. -/
theorem C4_thm (key : ApiKey) (r1 r2 : SpecPath) (els : List SpecPath) (c : Compiled)
    (h1 : r1.namespaced = true) (h2 : r1.methods = ["get", "list"])
    (h3 : r1.sub_action = none) (h4 : r2.namespaced = false)
    (h5 : r2.methods = ["list"]) (h6 : r2.sub_action = none)
    (ho : els = [r1, r2] ∨ els = [r2, r1]) (hc : compile_one key els = some c) :
    c.namespaced = true ∧ c.actions = ["get", "global_list", "list"] := by
  obtain ⟨-, -, -, -, hns, hact, -⟩ := compile_one_some key els c hc
  have hacc : (compAcc els).namespaced = true := by
    rcases ho with rfl | rfl <;> simp [compAcc, compStep, h1, h4]
  refine ⟨by rw [hns, hacc], ?_⟩
  rcases ho with rfl | rfl
  · have hraw : rawActions true [r1, r2] = ["get", "list", "global_list"] := by
      simp [rawActions, subTruthy, pyTruthyOS, h1, h2, h3, h4, h5, h6, globalize]
    rw [hact, hacc, hraw]
    decide
  · have hraw : rawActions true [r2, r1] = ["global_list", "get", "list"] := by
      simp [rawActions, subTruthy, pyTruthyOS, h1, h2, h3, h4, h5, h6, globalize]
    rw [hact, hacc, hraw]
    decide

theorem C4_witness :
    compile_one ⟨"", "v1", "pods"⟩ [rNsGetList, rGlList] =
      some ⟨⟨"", "v1", "Pod"⟩, "pods", some "pod", some ⟨"Pod", some "core_v1"⟩, true,
            ["get", "global_list", "list"], []⟩ ∧
    (⟨⟨"", "v1", "Pod"⟩, "pods", some "pod", some ⟨"Pod", some "core_v1"⟩, true,
      ["get", "global_list", "list"], []⟩ : Compiled).namespaced = true ∧
    (⟨⟨"", "v1", "Pod"⟩, "pods", some "pod", some ⟨"Pod", some "core_v1"⟩, true,
      ["get", "global_list", "list"], []⟩ : Compiled).actions =
      ["get", "global_list", "list"] := by
  have h : compile_one ⟨"", "v1", "pods"⟩ [rNsGetList, rGlList] =
      some ⟨⟨"", "v1", "Pod"⟩, "pods", some "pod", some ⟨"Pod", some "core_v1"⟩, true,
            ["get", "global_list", "list"], []⟩ := by
    decide
  have h2 := C4_thm ⟨"", "v1", "pods"⟩ rNsGetList rGlList [rNsGetList, rGlList] _
    rfl rfl rfl rfl rfl rfl (Or.inl rfl) h
  exact ⟨h, h2.1, h2.2⟩

/-- C7 counterexample: a compiled resource whose response schema is
wholly absent is produced by the Resource Compiler (a bucket whose only
record has neither `get` nor `post` in its verb set), and on it the Class
Descriptor Builder raises instead of succeeding. -/
theorem C7_counterexample :
    compile_one ⟨"", "v1", "things"⟩ [rDeleteOnly] = some cNoSchema ∧
    cNoSchema.model_schema = none ∧
    getClasses cNoSchema =
      Except.error "AttributeError: NoneType object has no attribute full_name" :=
  ⟨by decide, rfl, by decide⟩

/-- C7 as amended: descriptor building tolerates a schema with an absent
module (the schema-less primitive case): for a compiled resource with no
sub-actions whose schema is present but module-less, the builder succeeds
and emits the primary descriptor with no schema module to import; but a
wholly absent (`None`) schema makes the builder raise. -/
theorem C7_thm (c : Compiled) (s : Schema)
    (h1 : c.model_schema = some s) (h2 : s.module = none) (h3 : c.sub_actions = []) :
    getClasses c =
      Except.ok [⟨c.resource.kind,
        [("resource", PropVal.s c.resource.definition),
         ("plural", PropVal.s (pyquote c.plural)),
         ("verbs", PropVal.l c.actions)],
        [],
        [if c.actions.contains "global_list" then "NamespacedResourceG"
         else if c.namespaced then "NamespacedResource" else "GlobalResource"],
        none⟩] := by
  simp only [getClasses, h3, emapM, buildActs, List.foldl, primaryClass, h1,
             Except.instMonad, Except.bind]
  simp only [Schema.full_name, h2]
  simp only [transform_classes, List.filterMap, Option.map]
  split_ifs with hA hB hC hD hE <;> try simp
  · exact absurd hB (by decide)
  · exact absurd hD (by decide)
  · exact absurd hE (by decide)

theorem C7_witness :
    cPrimSchema.model_schema = some ⟨"object", none⟩ ∧ cPrimSchema.sub_actions = [] ∧
    getClasses cPrimSchema =
      Except.ok [⟨cPrimSchema.resource.kind,
        [("resource", PropVal.s cPrimSchema.resource.definition),
         ("plural", PropVal.s (pyquote cPrimSchema.plural)),
         ("verbs", PropVal.l cPrimSchema.actions)],
        [],
        [if cPrimSchema.actions.contains "global_list" then "NamespacedResourceG"
         else if cPrimSchema.namespaced then "NamespacedResource" else "GlobalResource"],
        none⟩] :=
  ⟨rfl, rfl, C7_thm cPrimSchema ⟨"object", none⟩ rfl rfl rfl⟩

/-- C8: on success the builder emits one descriptor per sub-action — named
parent kind plus the capitalized sub-action name, tagged with the
namespaced or global sub-resource base class according to the parent's
flag, its properties carrying the sub-resource identity, the parent
back-reference, the plural literal, the sub-action verb table and the
sub-action name — followed by exactly one primary descriptor, named after
the parent kind, whose sub-action table maps each sub-action's
capitalized name to the generated sub-resource class name. -/
theorem C8_thm (c : Compiled) (cls : List Class) (h : getClasses c = Except.ok cls) :
    cls.length = c.sub_actions.length + 1 ∧
    (∀ i sa, c.sub_actions.get? i = some sa →
      ∃ sres msch, sa.resource = some sres ∧ sa.model_schema = some msch ∧
        cls.get? i = some ⟨c.resource.kind ++ pyCapitalize sa.name,
          [("resource", PropVal.s sres.definition),
           ("parent", PropVal.s c.resource.definition),
           ("plural", PropVal.s (pyquote c.plural)),
           ("verbs", PropVal.l sa.actions),
           ("action", PropVal.s (pyquote sa.name))],
          [], transform_classes
            [some (if c.namespaced then "NamespacedSubResource" else "GlobalSubResource"),
             msch.full_name],
          msch.module⟩) ∧
    (∃ prim, cls.getLast? = some prim ∧ prim.name = c.resource.kind ∧
      prim.actions = buildActs c ∧
      ∀ sa ∈ c.sub_actions,
        alookup prim.actions (pyCapitalize sa.name) =
          some (c.resource.kind ++ pyCapitalize sa.name)) := by
  obtain ⟨subs, prim, hsubs, hprim, rfl⟩ := getClasses_ok c cls h
  obtain ⟨hlen, hget⟩ := emapM_ok_parts (subClass c) c.sub_actions subs hsubs
  refine ⟨by simp [hlen], ?_, ?_⟩
  · intro i sa hsa
    obtain ⟨b, hb, hcls⟩ := hget i sa hsa
    obtain ⟨sres, msch, hres, hmsch, rfl⟩ := subClass_ok c sa b hcls
    refine ⟨sres, msch, hres, hmsch, ?_⟩
    have hi : i < subs.length := by
      rw [hlen]
      exact List.get?_eq_some.mp hsa |>.1
    rw [List.get?_append hi]
    exact hb
  · obtain ⟨msch, hm, hpeq⟩ := primaryClass_ok c (buildActs c) prim hprim
    refine ⟨prim, ?_, ?_, ?_, ?_⟩
    · rw [List.getLast?_concat]
    · rw [hpeq]
    · rw [hpeq]
    · intro sa hsa
      rw [hpeq]
      exact buildActs_mem_lookup c sa hsa

theorem C8_witness :
    getClasses cWithSub = Except.ok clsWithSub ∧
    clsWithSub.length = cWithSub.sub_actions.length + 1 := by
  have hok : getClasses cWithSub = Except.ok clsWithSub := by decide
  exact ⟨hok, (C8_thm cWithSub clsWithSub hok).1⟩

/-- C2 counterexample: on a document whose path carries two documentation
tags, two equally legitimate values of `set.pop()` on that tag set (both
are members of the set) yield different pipeline outputs, so output
identity across two runs is not guaranteed by the code alone. -/
theorem C2_counterexample :
    pickHead ["Alpha", "Beta"] ∈ ["Alpha", "Beta"] ∧
    pickLast ["Alpha", "Beta"] ∈ ["Alpha", "Beta"] ∧
    pipeline docC2 pickHead ≠ pipeline docC2 pickLast :=
  ⟨by decide, by decide, by decide⟩

/-- C2 as amended: compiling twice is deterministic — identical record
stream and identical module-to-descriptor-and-imports output — provided
every path's unioned documentation-tag set has at most one element (the
tag choice is then forced); with several tags on one path the chosen
module depends on the set iteration order, which the code does not fix
across runs. -/
theorem C2_thm (doc : Doc) (p1 p2 : List String → String)
    (hv1 : ∀ l, l ≠ [] → p1 l ∈ l) (hv2 : ∀ l, l ≠ [] → p2 l ∈ l)
    (h1 : ∀ p defi, (p, defi) ∈ doc.paths →
      ∀ st, procEntries doc defi = Except.ok st → st.tags.length ≤ 1) :
    extract doc p1 = extract doc p2 ∧ pipeline doc p1 = pipeline doc p2 := by
  have hext := extract_congr doc p1 p2 hv1 hv2 h1
  refine ⟨hext, ?_⟩
  unfold pipeline
  rw [hext]

theorem C2_witness :
    extract docC2one pickHead = extract docC2one pickLast ∧
    pipeline docC2one pickHead = pipeline docC2one pickLast := by
  refine C2_thm docC2one pickHead pickLast pickHead_mem pickLast_mem ?_
  intro p defi hmem st hst
  simp only [docC2one, List.mem_singleton, Prod.mk.injEq] at hmem
  obtain ⟨rfl, rfl⟩ := hmem
  rw [(by decide : procEntries docC2one
      [PathEntry.meth "get"
        ⟨SchemaVal.prim "object", none, some ⟨"", "v1", "Thing"⟩, ["Alpha"], none⟩] =
      Except.ok ⟨["get"], some ⟨"", "v1", "Thing"⟩, some ⟨"object", none⟩, ["Alpha"]⟩)] at hst
  cases hst
  decide

/-- C3 counterexample: with the second path carrying no documentation tag,
exactly as the claim words it, extraction raises while building that
path's record (the tag-set pop), so the pipeline emits no
`CompiledResource` at all — not the claimed one-resource output. -/
theorem C3_counterexample :
    extract docC3bad pickHead = Except.error "KeyError: pop from an empty set" ∧
    compiledOf docC3bad pickHead = Except.error "KeyError: pop from an empty set" ∧
    pipeline docC3bad pickHead = Except.error "KeyError: pop from an empty set" :=
  ⟨by decide, by decide, by decide⟩

/-- C3 as amended: with the second path also carrying a documentation tag
(as the real specification does), the pipeline produces exactly one
bucket, keyed `("", "v1", "pods")`, whose compiled resource has
`namespaced = true`, actions `[global_list, list, post]` and no
sub-actions, and the builder emits for it exactly one primary descriptor
named `Pod` with the `NamespacedResourceG` (namespaced-with-global-list)
base-class tag. -/
theorem C3_thm :
    (extract docC3good pickHead).map (fun rs => (aggregate rs).map Prod.fst) =
      Except.ok [⟨"", "v1", "pods"⟩] ∧
    compiledOf docC3good pickHead =
      Except.ok [⟨⟨"", "v1", "Pod"⟩, "pods", some "pod", some ⟨"Pod", some "core_v1"⟩, true,
                 ["global_list", "list", "post"], []⟩] ∧
    getClasses ⟨⟨"", "v1", "Pod"⟩, "pods", some "pod", some ⟨"Pod", some "core_v1"⟩, true,
                ["global_list", "list", "post"], []⟩ =
      Except.ok [⟨"Pod",
        [("resource", PropVal.s (Resource.definition ⟨"", "v1", "Pod"⟩)),
         ("plural", PropVal.s (pyquote "pods")),
         ("verbs", PropVal.l ["global_list", "list", "post"])],
        [], ["NamespacedResourceG", "m_core_v1.Pod"], some "core_v1"⟩] :=
  ⟨by decide, by decide, by decide⟩

end LKGen
